import Mathlib

/-!
Verification of the SHL assessment-recommendation pipeline
(`rag/retriever.py`, `rag/embeddings.py`) against its specification.

The Python code is shallowly embedded: documents and their metadata bags
become Lean structures, the selection / scoring / emission loops become
structural recursions over lists, and fallible stages become `Except`.
External services (the vector store and the language model) are modelled
by passing their responses in as explicit arguments, since the pipeline
treats them as opaque request/response calls.

Conventions:
- Python `None` and the empty string are both falsy for url fields; both
  are modelled as `""` (the code only ever tests truthiness of urls).
- A possibly-absent metadata string field is `Option String`.
- Python `int` sizes and counts that are non-negative by construction
  (`k`, list lengths, per-type targets) are `Nat`; LLM scores are `Int`.
-/

/-- Metadata bag attached to every indexed document, as built by
`row_to_document` in `rag/embeddings.py` and read back in
`rag/retriever.py`.  `assessmentUrl = ""` models a missing or empty
`assessment_url` (both are falsy in the Python truthiness tests).
`testTypeCodes` is the comma-separated code string stored by the current
builder (the legacy list storage shape is normalised to the same string). -/
structure DocMetadata where
  assessmentName : String
  assessmentUrl : String
  testTypeCodes : String
  duration : Option String
  remoteTesting : String
  adaptiveIrt : String
deriving DecidableEq

/-- An indexed document: text body plus metadata, mirroring the
langchain `Document` objects flowing through `retriever.py`. -/
structure Document where
  pageContent : String
  metadata : DocMetadata
deriving DecidableEq

/-- Final output record built by the emission loop of `recommend`
(`retriever.py` lines 326-347). -/
structure Recommendation where
  url : String
  name : String
  adaptiveSupport : String
  description : String
  duration : Option Nat
  remoteSupport : String
  testType : List String
deriving DecidableEq

/-- TEST_TYPE_MAP of `rag/retriever.py`: code letter to human-readable
category name. -/
def TEST_TYPE_MAP : List (String × String) :=
  [("A", "Ability & Aptitude"),
   ("B", "Biodata & Situational Judgment"),
   ("C", "Competencies"),
   ("D", "Development & 360"),
   ("E", "Assessment Exercises"),
   ("K", "Knowledge & Skills"),
   ("P", "Personality & Behaviour"),
   ("S", "Simulations")]

/-- DOMAIN_TO_TEST_TYPES of `rag/retriever.py`: domain label to list of
test-type codes (currently a bijective one-letter mapping). -/
def DOMAIN_TO_TEST_TYPES : List (String × List String) :=
  [("Ability & Aptitude", ["A"]),
   ("Biodata & Situational Judgment", ["B"]),
   ("Competencies", ["C"]),
   ("Development & 360", ["D"]),
   ("Assessment Exercises", ["E"]),
   ("Knowledge & Skills", ["K"]),
   ("Personality & Behaviour", ["P"]),
   ("Simulations", ["S"])]

/-- TEST_TYPE_MAP of `rag/embeddings.py` (the document builder uses a
different set of human-readable names than the retriever). -/
def TEST_TYPE_MAP_EMBEDDINGS : List (String × String) :=
  [("A", "Ability and aptitude assessments"),
   ("B", "Biodata and situational judgment assessments"),
   ("C", "Competency-based assessments"),
   ("D", "Development and 360-degree feedback assessments"),
   ("E", "Assessment exercises"),
   ("K", "Knowledge and skills assessments"),
   ("P", "Personality and behavioral assessments"),
   ("S", "Simulation-based assessments")]

/-- Python `str.strip()` on a character list (Python strips a slightly
larger Unicode whitespace set than `Char.isWhitespace`; the difference is
irrelevant to the catalog data, which is ASCII). -/
def py_strip (cs : List Char) : List Char :=
  ((cs.dropWhile Char.isWhitespace).reverse.dropWhile Char.isWhitespace).reverse

/-- Python `str.split(sep)` for a one-character separator: `""` splits to
`[""]`, and empty pieces between separators are kept, as in Python. -/
def py_split_char (sep : Char) : List Char → List (List Char)
  | [] => [[]]
  | c :: cs =>
    if c = sep then [] :: py_split_char sep cs
    else
      match py_split_char sep cs with
      | [] => [[c]]
      | piece :: rest => (c :: piece) :: rest

/-- Python `str.split(marker, 1)` when the marker occurs: the text before
the first occurrence and everything after it; `none` when it does not. -/
def py_split_marker (sep : List Char) : List Char → Option (List Char × List Char)
  | [] => none
  | c :: cs =>
    if sep.isPrefixOf (c :: cs) then some ([], (c :: cs).drop sep.length)
    else
      match py_split_marker sep cs with
      | none => none
      | some (pre, post) => some (c :: pre, post)

/-- Python `sep.join(pieces)`. -/
def join_sep (sep : String) : List String → String
  | [] => ""
  | [s] => s
  | s :: rest => s ++ sep ++ join_sep sep rest

/-- `extract_test_types` of `retriever.py` on the current string storage
shape: split the stored code string on commas, strip whitespace, drop
empty pieces. -/
def extract_test_types (doc : Document) : List String :=
  ((py_split_char ',' doc.metadata.testTypeCodes.data).map
    (fun p => String.mk (py_strip p))).filter (fun c => c ≠ "")

/-- `expand_test_types` of `rag/embeddings.py`: convert a comma-separated
code string into the comma-joined human-readable descriptions, silently
dropping codes outside the map.  `none` models a NaN cell (`pd.isna`).
Unlike `extract_test_types`, empty stripped pieces are kept in `codes`
(they fail the map lookup anyway). -/
def expand_test_types (raw : Option String) : String :=
  match raw with
  | none => ""
  | some s =>
    let codes := (py_split_char ',' s.data).map (fun p => String.mk (py_strip p))
    join_sep ", " (codes.filterMap (fun c => TEST_TYPE_MAP_EMBEDDINGS.lookup c))

/-- `extract_description` of `retriever.py`: everything after the first
occurrence of the `Description:` marker, stripped; the whole text
stripped when the marker is absent. -/
def extract_description (text : String) : String :=
  match py_split_marker "Description:".data text.data with
  | some (_, post) => String.mk (py_strip post)
  | none => String.mk (py_strip text.data)

-- ================== balanced_selection (retriever.py lines 143-195) ==================

/-- Mutable state of the two selection passes: the accepted documents in
order, the set (as a list) of urls already accepted, and the running
per-type accept-counts (`type_counts`; types outside `required` stay 0,
matching the 0-initialised Python dict whose keys are the required types). -/
structure SelState where
  selected : List Document
  seen : List String
  counts : String → Nat

/-- The `matching_types` list of the first pass of `balanced_selection`:
required codes present in the document's code set, in required-list order. -/
def matching_types (required : List String) (doc : Document) : List String :=
  required.filter (fun t => t ∈ extract_test_types doc)

/-- First pass of `balanced_selection`: scan in input order, stop once
`k` documents are selected, skip empty or already-seen urls, accept when
the document matches a required type whose running count is below the
target, and on acceptance bump the count of every matching type. -/
def first_pass (k : Nat) (required : List String) (target : Nat) :
    List Document → SelState → SelState
  | [], st => st
  | doc :: docs, st =>
    if k ≤ st.selected.length then st
    else
      let url := doc.metadata.assessmentUrl
      if url = "" ∨ url ∈ st.seen then
        first_pass k required target docs st
      else
        let mts := matching_types required doc
        if mts ≠ [] ∧ mts.any (fun t => decide (st.counts t < target)) = true then
          first_pass k required target docs
            { selected := st.selected ++ [doc]
              seen := url :: st.seen
              counts := fun t => if t ∈ mts then st.counts t + 1 else st.counts t }
        else
          first_pass k required target docs st

/-- Second pass of `balanced_selection`: fill remaining slots, in input
order, with any not-yet-seen document having a non-empty url. -/
def second_pass (k : Nat) : List Document → SelState → SelState
  | [], st => st
  | doc :: docs, st =>
    if k ≤ st.selected.length then st
    else
      let url := doc.metadata.assessmentUrl
      if url ≠ "" ∧ url ∉ st.seen then
        second_pass k docs
          { st with selected := st.selected ++ [doc], seen := url :: st.seen }
      else
        second_pass k docs st

/-- The per-type target of `balanced_selection`:
`max(1, k // max(1, len(required_test_types)))`. -/
def per_type_target (k : Nat) (required : List String) : Nat :=
  max 1 (k / max 1 required.length)

/-- `balanced_selection` of `retriever.py`: first pass, then second pass
over the same input order, then truncation to `k`. -/
def balanced_selection (docs : List Document) (required : List String) (k : Nat) :
    List Document :=
  let st0 : SelState := ⟨[], [], fun _ => 0⟩
  let st1 := first_pass k required (per_type_target k required) docs st0
  let st2 := second_pass k docs st1
  st2.selected.take k

/-- The list of documents accepted by the first pass of
`balanced_selection` when started from the empty state. -/
def first_pass_selected (docs : List Document) (required : List String) (k : Nat) :
    List Document :=
  (first_pass k required (per_type_target k required) docs ⟨[], [], fun _ => 0⟩).selected

-- ================== LLM scoring (retriever.py lines 199-239) ==================

/-- Failure of the structured-output validation of the scoring call
(a pydantic `ValidationError` escaping `score_with_llm`). -/
inductive ScoringError where
  | validation : ScoringError
deriving DecidableEq

/-- `score_with_llm` of `retriever.py`, with the raw model response made
explicit.  The pydantic schema `ScoreList(scores=List[conint(ge=1, le=5)])`
validates that every returned element lies in [1,5]; a violation raises
and propagates (there is no try/except around the call).  No constraint
relates the length of the response to the number of documents. -/
def score_with_llm (docs : List Document) (modelScores : List Int) :
    Except ScoringError (List Int) :=
  if modelScores.all (fun s => decide (1 ≤ s ∧ s ≤ 5)) then
    Except.ok modelScores
  else
    Except.error ScoringError.validation

-- ================== intent detection (retriever.py lines 60-111, 255-260) ==================

/-- `detect_query_intent` of `retriever.py`, with the raw model response
made explicit.  `none` models a response the structured-output layer could
not parse at all; `some ds` a parsed list of domain labels, which the
pydantic `Literal` schema validates against the 8 fixed domain names.
A `ValidationError` is caught and turned into the empty list. -/
def detect_query_intent (raw : Option (List String)) : List String :=
  match raw with
  | none => []
  | some ds =>
    if ds.all (fun d => decide (d ∈ DOMAIN_TO_TEST_TYPES.map Prod.fst)) then ds
    else []

/-- `infer_required_test_types` of `retriever.py`: union of the mapped
code lists.  Python accumulates into a `set` and returns `list(set)`,
whose iteration order is unspecified; we model one concrete order
(first-occurrence), which no claim depends on. -/
def infer_required_test_types (domains : List String) : List String :=
  (domains.bind (fun d => (DOMAIN_TO_TEST_TYPES.lookup d).getD [])).eraseDups

/-- The required-code computation of `recommend` (lines 255-260):
intent detection, code resolution, and the `["K", "P"]` safety fallback
when no codes resolve. -/
def required_codes_of (raw : Option (List String)) : List String :=
  let req := infer_required_test_types (detect_query_intent raw)
  if req = [] then ["K", "P"] else req

-- ================== duration parsing (retriever.py lines 312-324) ==================

/-- Digits-to-number accumulator used to model Python `int(m.group(1))`. -/
def digits_to_nat (ds : List Char) : Nat :=
  ds.foldl (fun n c => 10 * n + (c.toNat - '0'.toNat)) 0

/-- The first maximal run of decimal digits in a character list, if any;
this is what `re.search(r"(\d+)", raw)` captures. -/
def first_digit_run : List Char → Option (List Char)
  | [] => none
  | c :: cs =>
    if c.isDigit then some (c :: cs.takeWhile Char.isDigit)
    else first_digit_run cs

/-- `duration_as_int` of `recommend` with the raw metadata field as
`Option String` (`none` models an absent field / Python `None`).
For a string with a digit run, the run is parsed; for a digit-free
string the code falls through to `int(float(raw))`, which can only
succeed on strings containing digits (the digit-free floats are the
inf/nan spellings, on which `int()` raises and the `except` returns
`None`), so the digit-free branch is `none`. -/
def duration_as_int (raw : Option String) : Option Nat :=
  match raw with
  | none => none
  | some s =>
    match first_digit_run s.data with
    | some ds => some (digits_to_nat ds)
    | none => none

-- ================== ranking (retriever.py lines 306-310) ==================

/-- Stable descending insertion by score: the new pair goes after every
element with a strictly greater score and before the first element with
score at most its own, so earlier input order wins among equal scores. -/
def insert_desc (x : Document × Int) : List (Document × Int) → List (Document × Int)
  | [] => [x]
  | y :: ys => if x.2 < y.2 then y :: insert_desc x ys else x :: y :: ys

/-- Stable sort by score descending.  CPython `sorted(key=lambda x: x[1],
reverse=True)` is the stable descending sort by key, and a stable sort
for a total preorder is unique as a function, so this insertion sort is
extensionally the Python call. -/
def sort_desc_by_score : List (Document × Int) → List (Document × Int)
  | [] => []
  | x :: xs => insert_desc x (sort_desc_by_score xs)

/-- The `ranked` list of `recommend`:
`sorted(zip(balanced, scores), key=lambda x: x[1], reverse=True)`.
Python `zip` truncates to the shorter input, as does `List.zip`. -/
def ranked_pairs (balanced : List Document) (scores : List Int) :
    List (Document × Int) :=
  sort_desc_by_score (balanced.zip scores)

-- ================== retrieval merge (retriever.py lines 262-294) ==================

/-- One merge loop of the retrieval stage: append documents whose url is
non-empty (Python `if url`) and not yet seen. -/
def merge_loop : List Document → List Document × List String → List Document × List String
  | [], acc => acc
  | doc :: docs, (out, seen) =>
    let url := doc.metadata.assessmentUrl
    if url ≠ "" ∧ url ∉ seen then
      merge_loop docs (out ++ [doc], url :: seen)
    else
      merge_loop docs (out, seen)

/-- The retrieval merge of `recommend`: the per-type similarity-search
batches followed by the optional unfiltered top-up batch, merged with a
single `seen_urls` set across all batches. -/
def merge_retrieved (batches : List (List Document)) : List Document :=
  (batches.foldl (fun acc batch => merge_loop batch acc) ([], [])).1

-- ================== emission (retriever.py lines 326-347) ==================

/-- The record built for one document inside the emission loop of
`recommend`.  Note `test_type` maps each extracted code `c` through
`TEST_TYPE_MAP.get(c, c)`: codes outside the map are passed through
unchanged, not dropped. -/
def build_recommendation (doc : Document) : Recommendation :=
  { url := doc.metadata.assessmentUrl
    name := doc.metadata.assessmentName
    adaptiveSupport := doc.metadata.adaptiveIrt
    description := extract_description doc.pageContent
    duration := duration_as_int doc.metadata.duration
    remoteSupport := doc.metadata.remoteTesting
    testType := (extract_test_types doc).map (fun c => (TEST_TYPE_MAP.lookup c).getD c) }

/-- The emission loop of `recommend`: walk the ranked pairs, skip empty
or duplicate urls, append the built record, and break once `k` records
have been emitted (the length test happens after the append, as in the
Python loop). -/
def emit_loop (k : Nat) : List (Document × Int) → List Recommendation → List String →
    List Recommendation
  | [], acc, _ => acc
  | (doc, _) :: rest, acc, seen =>
    let url := doc.metadata.assessmentUrl
    if url ≠ "" ∧ url ∉ seen then
      let acc2 := acc ++ [build_recommendation doc]
      if k ≤ acc2.length then acc2
      else emit_loop k rest acc2 (url :: seen)
    else
      emit_loop k rest acc seen

/-- The full emission stage of `recommend` on the ranked list. -/
def emit_recommendations (ranked : List (Document × Int)) (k : Nat) :
    List Recommendation :=
  emit_loop k ranked [] []

-- ================== catalog loader (embeddings.py lines 30-53) ==================

/-- The shape of a loaded catalog table that `load_catalog` inspects:
its column names and its row count. -/
structure Table where
  columns : List String
  nrows : Nat
deriving DecidableEq

/-- Failures of `load_catalog`: a missing required column (the spec's
`SchemaError`) or too few rows (the spec's `DataIntegrityError`); the
Python code raises `ValueError` with distinct messages for the two. -/
inductive LoadError where
  | schemaError (col : String) : LoadError
  | dataIntegrityError (found : Nat) : LoadError
deriving DecidableEq

/-- The seven required catalog columns checked by `load_catalog`. -/
def required_columns : List String :=
  ["name", "url", "description", "test_type", "duration", "remote_testing", "adaptive_irt"]

/-- Minimum row count enforced by `load_catalog`. -/
def MIN_ROWS : Nat := 377

/-- `load_catalog` of `rag/embeddings.py`: check the required columns in
order (first missing one raises), then the minimum row count, then return
the table unchanged. -/
def load_catalog (t : Table) : Except LoadError Table :=
  match required_columns.find? (fun c => decide (c ∉ t.columns)) with
  | some c => Except.error (LoadError.schemaError c)
  | none =>
    if t.nrows < MIN_ROWS then Except.error (LoadError.dataIntegrityError t.nrows)
    else Except.ok t

-- ================== claim-side specification definitions ==================

/-- Written from the words of claim C1 (the spec's first-pass algorithm):
scan all candidates, accept iff the url has not been seen among already
accepted candidates, the code set intersects the required codes, and some
matching code's count is below the target; increment every matching count
on acceptance.  It deliberately has neither the stop-at-`k` test nor the
non-empty-url test of the code. -/
def claim_first_pass (required : List String) (target : Nat) :
    List Document → List Document → (String → Nat) → List Document
  | [], acc, _ => acc
  | doc :: docs, acc, counts =>
    let url := doc.metadata.assessmentUrl
    let mts := matching_types required doc
    if url ∉ acc.map (fun d => d.metadata.assessmentUrl) ∧ mts ≠ [] ∧
        mts.any (fun t => decide (counts t < target)) = true then
      claim_first_pass required target docs (acc ++ [doc])
        (fun t => if t ∈ mts then counts t + 1 else counts t)
    else
      claim_first_pass required target docs acc counts

/-- The first pass exactly as claim C1 words it, from the empty state. -/
def claim_first_pass_selected (docs : List Document) (required : List String) (k : Nat) :
    List Document :=
  claim_first_pass required (per_type_target k required) docs [] (fun _ => 0)

/-- Written from the amended claim C1: same scan, but a candidate is
accepted only while fewer than `k` candidates have been accepted and only
when its url is non-empty. -/
def claim_first_pass_amended (k : Nat) (required : List String) (target : Nat) :
    List Document → List Document → (String → Nat) → List Document
  | [], acc, _ => acc
  | doc :: docs, acc, counts =>
    let url := doc.metadata.assessmentUrl
    let mts := matching_types required doc
    if acc.length < k ∧ url ≠ "" ∧ url ∉ acc.map (fun d => d.metadata.assessmentUrl) ∧
        mts ≠ [] ∧ mts.any (fun t => decide (counts t < target)) = true then
      claim_first_pass_amended k required target docs (acc ++ [doc])
        (fun t => if t ∈ mts then counts t + 1 else counts t)
    else
      claim_first_pass_amended k required target docs acc counts

/-- The amended first pass from the empty state. -/
def claim_first_pass_amended_selected (docs : List Document) (required : List String)
    (k : Nat) : List Document :=
  claim_first_pass_amended k required (per_type_target k required) docs [] (fun _ => 0)

/-- Written from the words of claim C4: de-duplication by url keeping the
first occurrence of every url value (including the empty one). -/
def dedup_by_url (seen : List String) : List Document → List Document
  | [] => []
  | d :: ds =>
    if d.metadata.assessmentUrl ∈ seen then dedup_by_url seen ds
    else d :: dedup_by_url (d.metadata.assessmentUrl :: seen) ds

/-- Written from the amended claim C4: de-duplication by url that also
drops documents whose url is empty, as the code's second pass does. -/
def dedup_by_url_nonempty (seen : List String) : List Document → List Document
  | [] => []
  | d :: ds =>
    if d.metadata.assessmentUrl = "" then dedup_by_url_nonempty seen ds
    else if d.metadata.assessmentUrl ∈ seen then dedup_by_url_nonempty seen ds
    else d :: dedup_by_url_nonempty (d.metadata.assessmentUrl :: seen) ds

-- ================== concrete fixtures for witnesses and counterexamples ==================

/-- Fixture: document with url `uA` and code set {A}. -/
def docA : Document :=
  ⟨"", ⟨"nA", "uA", "A", some "30", "Yes", "No"⟩⟩

/-- Fixture: document with url `uB` and code set {B}. -/
def docB : Document :=
  ⟨"", ⟨"nB", "uB", "B", some "30", "Yes", "No"⟩⟩

/-- Fixture: document with an empty url and code set {C}. -/
def docEmptyC : Document :=
  ⟨"", ⟨"nE", "", "C", none, "No", "No"⟩⟩

/-- Fixture: document with url `uC` and code set {C}. -/
def docC : Document :=
  ⟨"", ⟨"nC", "uC", "C", some "45 minutes", "No", "Yes"⟩⟩

/-- Fixture: document with url `uX` and code set {X, K}, where `X` is not
one of the 8 known test-type codes. -/
def docXK : Document :=
  ⟨"", ⟨"nX", "uX", "X,K", some "N/A", "Yes", "No"⟩⟩

-- ================== helper lemmas ==================

theorem first_digit_run_eq_none (l : List Char) (h : ∀ c ∈ l, ¬ c.isDigit) :
    first_digit_run l = none := by
  induction l with
  | nil => rfl
  | cons c cs ih =>
    have hc : ¬ c.isDigit := h c (List.mem_cons_self c cs)
    simp only [first_digit_run, if_neg hc]
    exact ih (fun x hx => h x (List.mem_cons_of_mem c hx))

theorem takeWhile_digits_append (d r : List Char) (hd : ∀ c ∈ d, c.isDigit)
    (hr : ∀ c, r.head? = some c → ¬ c.isDigit) :
    (d ++ r).takeWhile Char.isDigit = d := by
  induction d with
  | nil =>
    cases r with
    | nil => rfl
    | cons c cs =>
      have : ¬ c.isDigit := hr c rfl
      simp [List.takeWhile_cons, this]
  | cons c cs ih =>
    have hc : c.isDigit := hd c (List.mem_cons_self c cs)
    simp only [List.cons_append, List.takeWhile_cons, hc, if_true]
    rw [ih (fun x hx => hd x (List.mem_cons_of_mem c hx))]

theorem first_digit_run_skip (p l : List Char) (hp : ∀ c ∈ p, ¬ c.isDigit) :
    first_digit_run (p ++ l) = first_digit_run l := by
  induction p with
  | nil => rfl
  | cons c cs ih =>
    have hc : ¬ c.isDigit := hp c (List.mem_cons_self c cs)
    simp only [List.cons_append, first_digit_run, if_neg hc]
    exact ih (fun x hx => hp x (List.mem_cons_of_mem c hx))

theorem mem_insert_desc (x y : Document × Int) (l : List (Document × Int)) :
    y ∈ insert_desc x l ↔ y = x ∨ y ∈ l := by
  induction l with
  | nil => simp [insert_desc]
  | cons z zs ih =>
    simp only [insert_desc]
    split
    · simp only [List.mem_cons, ih]
      tauto
    · simp [List.mem_cons]

theorem pairwise_insert_desc (x : Document × Int) (l : List (Document × Int))
    (h : l.Pairwise (fun a b => b.2 ≤ a.2)) :
    (insert_desc x l).Pairwise (fun a b => b.2 ≤ a.2) := by
  induction l with
  | nil => simp [insert_desc]
  | cons z zs ih =>
    rcases List.pairwise_cons.mp h with ⟨hz, hzs⟩
    simp only [insert_desc]
    split
    · refine List.pairwise_cons.mpr ⟨?_, ih hzs⟩
      intro y hy
      rcases (mem_insert_desc x y zs).mp hy with hyx | hyz
      · subst hyx; omega
      · exact hz y hyz
    · refine List.pairwise_cons.mpr ⟨?_, h⟩
      intro y hy
      rcases List.mem_cons.mp hy with hyz | hyzs
      · subst hyz; omega
      · have := hz y hyzs
        omega

theorem filter_insert_desc (s : Int) (x : Document × Int) (l : List (Document × Int)) :
    (insert_desc x l).filter (fun p => p.2 == s)
      = if x.2 = s then x :: l.filter (fun p => p.2 == s)
        else l.filter (fun p => p.2 == s) := by
  induction l with
  | nil =>
    by_cases hxs : x.2 = s <;>
      simp [insert_desc, List.filter_cons, hxs]
  | cons z zs ih =>
    simp only [insert_desc]
    by_cases hzx : x.2 < z.2
    · rw [if_pos hzx]
      by_cases hxs : x.2 = s
      · have hzs : z.2 ≠ s := by omega
        simp [List.filter_cons, hzs, ih, hxs]
      · simp [List.filter_cons, ih, hxs]
    · rw [if_neg hzx]
      by_cases hxs : x.2 = s <;>
        simp [List.filter_cons, hxs]

theorem sort_desc_filter (l : List (Document × Int)) (s : Int) :
    (sort_desc_by_score l).filter (fun p => p.2 == s) = l.filter (fun p => p.2 == s) := by
  induction l with
  | nil => rfl
  | cons x xs ih =>
    simp only [sort_desc_by_score]
    rw [filter_insert_desc]
    by_cases hxs : x.2 = s
    · rw [if_pos hxs, ih]
      simp [List.filter_cons, hxs]
    · rw [if_neg hxs, ih]
      simp [List.filter_cons, hxs]

theorem sort_desc_pairwise (l : List (Document × Int)) :
    (sort_desc_by_score l).Pairwise (fun a b => b.2 ≤ a.2) := by
  induction l with
  | nil => exact List.Pairwise.nil
  | cons x xs ih => exact pairwise_insert_desc x _ ih

theorem first_pass_inv (k target : Nat) (required : List String) :
    ∀ (docs : List Document) (st : SelState),
      (st.selected.map (fun d => d.metadata.assessmentUrl)).Nodup →
      (∀ u ∈ st.selected.map (fun d => d.metadata.assessmentUrl), u ∈ st.seen) →
      (∀ d ∈ st.selected, d.metadata.assessmentUrl ≠ "") →
      (((first_pass k required target docs st).selected.map
          (fun d => d.metadata.assessmentUrl)).Nodup
        ∧ (∀ u ∈ (first_pass k required target docs st).selected.map
            (fun d => d.metadata.assessmentUrl), u ∈ (first_pass k required target docs st).seen)
        ∧ (∀ d ∈ (first_pass k required target docs st).selected,
            d.metadata.assessmentUrl ≠ "")
        ∧ (∀ d ∈ (first_pass k required target docs st).selected,
            d ∈ docs ∨ d ∈ st.selected)) := by
  intro docs
  induction docs with
  | nil =>
    intro st h1 h2 h3
    exact ⟨h1, h2, h3, fun d hd => Or.inr hd⟩
  | cons doc rest ih =>
    intro st h1 h2 h3
    simp only [first_pass]
    split_ifs with hk hu hm
    · exact ⟨h1, h2, h3, fun d hd => Or.inr hd⟩
    · obtain ⟨g1, g2, g3, g4⟩ := ih st h1 h2 h3
      exact ⟨g1, g2, g3, fun d hd => (g4 d hd).imp (List.mem_cons_of_mem _) id⟩
    · push_neg at hu
      obtain ⟨hu1, hu2⟩ := hu
      have hmap : doc.metadata.assessmentUrl ∉
          st.selected.map (fun d => d.metadata.assessmentUrl) :=
        fun hin => hu2 (h2 _ hin)
      have n1 : ((st.selected ++ [doc]).map (fun d => d.metadata.assessmentUrl)).Nodup := by
        simp only [List.map_append, List.map_cons, List.map_nil]
        simp [List.nodup_append, h1, hmap]
      have n2 : ∀ u ∈ (st.selected ++ [doc]).map (fun d => d.metadata.assessmentUrl),
          u ∈ doc.metadata.assessmentUrl :: st.seen := by
        intro u hu
        simp only [List.map_append, List.map_cons, List.map_nil, List.mem_append,
          List.mem_singleton] at hu
        rcases hu with hus | hud
        · exact List.mem_cons_of_mem _ (h2 u hus)
        · simp [hud]
      have n3 : ∀ d ∈ st.selected ++ [doc], d.metadata.assessmentUrl ≠ "" := by
        intro d hd
        rcases List.mem_append.mp hd with hds | hdd
        · exact h3 d hds
        · rcases List.mem_singleton.mp hdd with rfl
          exact hu1
      obtain ⟨g1, g2, g3, g4⟩ := ih ⟨st.selected ++ [doc],
        doc.metadata.assessmentUrl :: st.seen,
        fun t => if t ∈ matching_types required doc then st.counts t + 1
                 else st.counts t⟩ n1 n2 n3
      refine ⟨g1, g2, g3, fun d hd => ?_⟩
      rcases g4 d hd with hdr | hds
      · exact Or.inl (List.mem_cons_of_mem _ hdr)
      · rcases List.mem_append.mp hds with hds | hdd
        · exact Or.inr hds
        · rcases List.mem_singleton.mp hdd with rfl
          exact Or.inl (List.mem_cons_self _ _)
    · obtain ⟨g1, g2, g3, g4⟩ := ih st h1 h2 h3
      exact ⟨g1, g2, g3, fun d hd => (g4 d hd).imp (List.mem_cons_of_mem _) id⟩

theorem second_pass_inv (k : Nat) :
    ∀ (docs : List Document) (st : SelState),
      (st.selected.map (fun d => d.metadata.assessmentUrl)).Nodup →
      (∀ u ∈ st.selected.map (fun d => d.metadata.assessmentUrl), u ∈ st.seen) →
      (∀ d ∈ st.selected, d.metadata.assessmentUrl ≠ "") →
      (((second_pass k docs st).selected.map (fun d => d.metadata.assessmentUrl)).Nodup
        ∧ (∀ d ∈ (second_pass k docs st).selected, d.metadata.assessmentUrl ≠ "")
        ∧ (∀ d ∈ (second_pass k docs st).selected, d ∈ docs ∨ d ∈ st.selected)) := by
  intro docs
  induction docs with
  | nil =>
    intro st h1 h2 h3
    exact ⟨h1, h3, fun d hd => Or.inr hd⟩
  | cons doc rest ih =>
    intro st h1 h2 h3
    simp only [second_pass]
    split_ifs with hk hu
    · exact ⟨h1, h3, fun d hd => Or.inr hd⟩
    · obtain ⟨hu1, hu2⟩ := hu
      have hmap : doc.metadata.assessmentUrl ∉
          st.selected.map (fun d => d.metadata.assessmentUrl) :=
        fun hin => hu2 (h2 _ hin)
      have n1 : ((st.selected ++ [doc]).map (fun d => d.metadata.assessmentUrl)).Nodup := by
        simp only [List.map_append, List.map_cons, List.map_nil]
        simp [List.nodup_append, h1, hmap]
      have n2 : ∀ u ∈ (st.selected ++ [doc]).map (fun d => d.metadata.assessmentUrl),
          u ∈ doc.metadata.assessmentUrl :: st.seen := by
        intro u hu
        simp only [List.map_append, List.map_cons, List.map_nil, List.mem_append,
          List.mem_singleton] at hu
        rcases hu with hus | hud
        · exact List.mem_cons_of_mem _ (h2 u hus)
        · simp [hud]
      have n3 : ∀ d ∈ st.selected ++ [doc], d.metadata.assessmentUrl ≠ "" := by
        intro d hd
        rcases List.mem_append.mp hd with hds | hdd
        · exact h3 d hds
        · rcases List.mem_singleton.mp hdd with rfl
          exact hu1
      obtain ⟨g1, g2, g3⟩ := ih ⟨st.selected ++ [doc],
        doc.metadata.assessmentUrl :: st.seen, st.counts⟩ n1 n2 n3
      refine ⟨g1, g2, fun d hd => ?_⟩
      rcases g3 d hd with hdr | hds
      · exact Or.inl (List.mem_cons_of_mem _ hdr)
      · rcases List.mem_append.mp hds with hds | hdd
        · exact Or.inr hds
        · rcases List.mem_singleton.mp hdd with rfl
          exact Or.inl (List.mem_cons_self _ _)
    · obtain ⟨g1, g2, g3⟩ := ih st h1 h2 h3
      exact ⟨g1, g2, fun d hd => (g3 d hd).imp (List.mem_cons_of_mem _) id⟩

theorem first_pass_empty_required (k target : Nat) :
    ∀ (docs : List Document) (st : SelState), first_pass k [] target docs st = st := by
  intro docs
  induction docs with
  | nil => intro st; rfl
  | cons doc rest ih =>
    intro st
    simp only [first_pass]
    split_ifs with hk hu hm
    · rfl
    · exact ih st
    · exact absurd rfl hm.1
    · exact ih st

theorem second_pass_selected (k : Nat) :
    ∀ (docs : List Document) (st : SelState),
      (second_pass k docs st).selected
        = st.selected ++ (dedup_by_url_nonempty st.seen docs).take (k - st.selected.length) := by
  intro docs
  induction docs with
  | nil => intro st; simp [second_pass, dedup_by_url_nonempty]
  | cons doc rest ih =>
    intro st
    by_cases hk : k ≤ st.selected.length
    · simp only [second_pass, if_pos hk]
      simp [Nat.sub_eq_zero_of_le hk]
    · by_cases he : doc.metadata.assessmentUrl = ""
      · have hcond : ¬ (doc.metadata.assessmentUrl ≠ "" ∧
            doc.metadata.assessmentUrl ∉ st.seen) := fun h => h.1 he
        simp only [second_pass, dedup_by_url_nonempty, if_neg hk, if_neg hcond, if_pos he]
        exact ih st
      · by_cases hs : doc.metadata.assessmentUrl ∈ st.seen
        · have hcond : ¬ (doc.metadata.assessmentUrl ≠ "" ∧
              doc.metadata.assessmentUrl ∉ st.seen) := fun h => h.2 hs
          simp only [second_pass, dedup_by_url_nonempty, if_neg hk, if_neg hcond,
            if_neg he, if_pos hs]
          exact ih st
        · have hcond : doc.metadata.assessmentUrl ≠ "" ∧
              doc.metadata.assessmentUrl ∉ st.seen := ⟨he, hs⟩
          simp only [second_pass, dedup_by_url_nonempty, if_neg hk, if_pos hcond,
            if_neg he, if_neg hs]
          rw [ih]
          have hk2 : st.selected.length < k := Nat.lt_of_not_le hk
          have hlen : k - st.selected.length = (k - (st.selected.length + 1)) + 1 := by omega
          simp only [List.length_append, List.length_singleton]
          rw [hlen, List.take_succ_cons]
          simp [List.append_assoc]

theorem claim_first_pass_amended_stops (k target : Nat) (required : List String) :
    ∀ (docs : List Document) (acc : List Document) (counts : String → Nat),
      k ≤ acc.length →
      claim_first_pass_amended k required target docs acc counts = acc := by
  intro docs
  induction docs with
  | nil => intro acc counts _; rfl
  | cons doc rest ih =>
    intro acc counts hk
    simp only [claim_first_pass_amended]
    rw [if_neg (fun h => absurd h.1 (by omega))]
    exact ih acc counts hk

theorem first_pass_eq_claim_amended (k target : Nat) (required : List String) :
    ∀ (docs : List Document) (sel : List Document) (seen : List String)
      (counts : String → Nat),
      (∀ u, u ∈ seen ↔ u ∈ sel.map (fun d => d.metadata.assessmentUrl)) →
      (first_pass k required target docs ⟨sel, seen, counts⟩).selected
        = claim_first_pass_amended k required target docs sel counts := by
  intro docs
  induction docs with
  | nil => intro sel seen counts _; rfl
  | cons doc rest ih =>
    intro sel seen counts h
    by_cases hk : k ≤ sel.length
    · simp only [first_pass, claim_first_pass_amended]
      rw [if_pos hk, if_neg (fun hc => absurd hc.1 (by omega))]
      exact (claim_first_pass_amended_stops k target required rest sel counts hk).symm
    · by_cases hu : doc.metadata.assessmentUrl = "" ∨ doc.metadata.assessmentUrl ∈ seen
      · have hcond : ¬ (sel.length < k ∧ doc.metadata.assessmentUrl ≠ "" ∧
            doc.metadata.assessmentUrl ∉ sel.map (fun d => d.metadata.assessmentUrl) ∧
            matching_types required doc ≠ [] ∧
            ((matching_types required doc).any
              (fun t => decide (counts t < target))) = true) := by
          intro hc
          rcases hu with he | hseen
          · exact hc.2.1 he
          · exact hc.2.2.1 ((h _).mp hseen)
        simp only [first_pass, claim_first_pass_amended]
        rw [if_neg hk, if_pos hu, if_neg hcond]
        exact ih sel seen counts h
      · push_neg at hu
        obtain ⟨hu1, hu2⟩ := hu
        have hu2m : doc.metadata.assessmentUrl ∉
            sel.map (fun d => d.metadata.assessmentUrl) :=
          fun hin => hu2 ((h _).mpr hin)
        by_cases hm : matching_types required doc ≠ [] ∧
            ((matching_types required doc).any
              (fun t => decide (counts t < target))) = true
        · have hcond : sel.length < k ∧ doc.metadata.assessmentUrl ≠ "" ∧
              doc.metadata.assessmentUrl ∉ sel.map (fun d => d.metadata.assessmentUrl) ∧
              matching_types required doc ≠ [] ∧
              ((matching_types required doc).any
                (fun t => decide (counts t < target))) = true :=
            ⟨Nat.lt_of_not_le hk, hu1, hu2m, hm.1, hm.2⟩
          simp only [first_pass, claim_first_pass_amended]
          rw [if_neg hk, if_neg (fun hc => hu1 (hc.resolve_right (fun hs => hu2 hs))),
            if_pos hm, if_pos hcond]
          apply ih
          intro u
          simp only [List.map_append, List.map_cons, List.map_nil, List.mem_append,
            List.mem_singleton, List.mem_cons]
          rw [h u]
          tauto
        · have hcond : ¬ (sel.length < k ∧ doc.metadata.assessmentUrl ≠ "" ∧
              doc.metadata.assessmentUrl ∉ sel.map (fun d => d.metadata.assessmentUrl) ∧
              matching_types required doc ≠ [] ∧
              ((matching_types required doc).any
                (fun t => decide (counts t < target))) = true) :=
            fun hc => hm ⟨hc.2.2.2.1, hc.2.2.2.2⟩
          simp only [first_pass, claim_first_pass_amended]
          rw [if_neg hk, if_neg (fun hc => hu1 (hc.resolve_right (fun hs => hu2 hs))),
            if_neg hm, if_neg hcond]
          exact ih sel seen counts h

theorem merge_loop_inv :
    ∀ (docs : List Document) (out : List Document) (seen : List String),
      (∀ d ∈ out, d.metadata.assessmentUrl ≠ "") →
      ∀ d ∈ (merge_loop docs (out, seen)).1, d.metadata.assessmentUrl ≠ "" := by
  intro docs
  induction docs with
  | nil => intro out seen h; exact h
  | cons doc rest ih =>
    intro out seen h
    simp only [merge_loop]
    split_ifs with hc
    · refine ih _ _ (fun d hd => ?_)
      rcases List.mem_append.mp hd with hdo | hdd
      · exact h d hdo
      · rcases List.mem_singleton.mp hdd with rfl
        exact hc.1
    · exact ih _ _ h

theorem merge_fold_inv :
    ∀ (batches : List (List Document)) (acc : List Document × List String),
      (∀ d ∈ acc.1, d.metadata.assessmentUrl ≠ "") →
      ∀ d ∈ (batches.foldl (fun acc batch => merge_loop batch acc) acc).1,
        d.metadata.assessmentUrl ≠ "" := by
  intro batches
  induction batches with
  | nil => intro acc h; exact h
  | cons batch rest ih =>
    intro acc h
    rw [List.foldl_cons]
    rcases acc with ⟨out, seen⟩
    exact ih _ (merge_loop_inv batch out seen h)

theorem emit_loop_inv (k : Nat) :
    ∀ (rest : List (Document × Int)) (acc : List Recommendation) (seen : List String),
      (∀ r ∈ acc, r.url ≠ "") →
      ∀ r ∈ emit_loop k rest acc seen, r.url ≠ "" := by
  intro rest
  induction rest with
  | nil => intro acc seen h; exact h
  | cons p tail ih =>
    rcases p with ⟨doc, score⟩
    intro acc seen h
    simp only [emit_loop]
    have hacc2 : ∀ r ∈ acc ++ [build_recommendation doc],
        doc.metadata.assessmentUrl ≠ "" → r.url ≠ "" := by
      intro r hr hne
      rcases List.mem_append.mp hr with hro | hrd
      · exact h r hro
      · rcases List.mem_singleton.mp hrd with rfl
        exact hne
    split_ifs with hc hk
    · intro r hr
      exact hacc2 r hr hc.1
    · exact ih _ _ (fun r hr => hacc2 r hr hc.1)
    · exact ih _ _ h

theorem emit_loop_mem (k : Nat) :
    ∀ (rest : List (Document × Int)) (acc : List Recommendation) (seen : List String)
      (r : Recommendation),
      r ∈ emit_loop k rest acc seen →
      r ∈ acc ∨ ∃ p ∈ rest, r = build_recommendation p.1 := by
  intro rest
  induction rest with
  | nil => intro acc seen r hr; exact Or.inl hr
  | cons p tail ih =>
    rcases p with ⟨doc, score⟩
    intro acc seen r hr
    simp only [emit_loop] at hr
    split_ifs at hr with hc hk
    · rcases List.mem_append.mp hr with hro | hrd
      · exact Or.inl hro
      · rcases List.mem_singleton.mp hrd with rfl
        exact Or.inr ⟨(doc, score), List.mem_cons_self _ _, rfl⟩
    · rcases ih _ _ r hr with hro | ⟨q, hq, hrq⟩
      · rcases List.mem_append.mp hro with hro | hrd
        · exact Or.inl hro
        · rcases List.mem_singleton.mp hrd with rfl
          exact Or.inr ⟨(doc, score), List.mem_cons_self _ _, rfl⟩
      · exact Or.inr ⟨q, List.mem_cons_of_mem _ hq, hrq⟩
    · rcases ih _ _ r hr with hro | ⟨q, hq, hrq⟩
      · exact Or.inl hro
      · exact Or.inr ⟨q, List.mem_cons_of_mem _ hq, hrq⟩

-- ================== claim theorems ==================

/-- Claim C1, counterexample: the first pass does not accept a candidate
iff the three claimed conditions hold.  With `required = {A,B,C}` and
`k = 2` the code stops scanning after two acceptances and also skips the
empty-url document, while the claimed accept-iff rule would accept the
empty-url C document as a third selection. -/
theorem claim_C1_counterexample :
    first_pass_selected [docA, docB, docEmptyC, docC] ["A", "B", "C"] 2
      ≠ claim_first_pass_selected [docA, docB, docEmptyC, docC] ["A", "B", "C"] 2 := by
  decide

/-- Claim C1 (amended): the first pass computes
`per_type_target = max(1, k / max(1, |required|))`, scans candidates in
input order, and accepts a candidate iff fewer than `k` candidates have
been accepted so far, its url is non-empty and has not been seen before,
its code set intersects the required codes, and at least one matching
code's running accept-count is below `per_type_target`; on acceptance it
increments the accept-count of every matching code. -/
theorem claim_C1_first_pass_algorithm :
    ∀ (docs : List Document) (required : List String) (k : Nat),
      first_pass_selected docs required k
        = claim_first_pass_amended_selected docs required k := by
  intro docs required k
  exact first_pass_eq_claim_amended k (per_type_target k required) required docs
    [] [] (fun _ => 0) (by simp)

/-- Claim C2, counterexample: the scorer does not enforce the length half
of the claimed contract.  A two-document call whose model response has a
single in-range score is returned as-is, with no error. -/
theorem claim_C2_counterexample :
    score_with_llm [docA, docB] [3] = Except.ok [3]
      ∧ ([3] : List Int).length ≠ [docA, docB].length := by
  exact ⟨rfl, by decide⟩

/-- Claim C2 (amended): the scorer returns the model response unchanged
(hence in its order) whenever every element is an integer in [1,5], and
fails with a scoring error propagated to the caller whenever some element
is out of range; it never silently falls back.  The length contract is
not validated: a response of any length passes. -/
theorem claim_C2_scoring_contract :
    ∀ (docs : List Document) (out : List Int),
      ((∀ s ∈ out, 1 ≤ s ∧ s ≤ 5) → score_with_llm docs out = Except.ok out)
      ∧ ((¬ ∀ s ∈ out, 1 ≤ s ∧ s ≤ 5) →
          score_with_llm docs out = Except.error ScoringError.validation) := by
  intro docs out
  simp only [score_with_llm]
  by_cases hall : out.all (fun s => decide (1 ≤ s ∧ s ≤ 5)) = true
  · rw [if_pos hall]
    refine ⟨fun _ => rfl, fun h => absurd ?_ h⟩
    intro s hs
    exact of_decide_eq_true (List.all_eq_true.mp hall s hs)
  · rw [if_neg hall]
    refine ⟨fun h => absurd ?_ hall, fun _ => rfl⟩
    rw [List.all_eq_true]
    intro s hs
    exact decide_eq_true (h s hs)

/-- Claim C2, witness: an all-in-range response is returned unchanged. -/
theorem claim_C2_witness : score_with_llm [docA] [3] = Except.ok [3] :=
  (claim_C2_scoring_contract [docA] [3]).1 (by decide)

/-- Claim C3 (confirmed): the balanced selection has length at most `k`,
no two output documents share a url, and every output document comes
from the input candidate list. -/
theorem claim_C3_selection_invariants :
    ∀ (docs : List Document) (required : List String) (k : Nat),
      (balanced_selection docs required k).length ≤ k
      ∧ (balanced_selection docs required k).Pairwise
          (fun a b => a.metadata.assessmentUrl ≠ b.metadata.assessmentUrl)
      ∧ (∀ d ∈ balanced_selection docs required k, d ∈ docs) := by
  intro docs required k
  obtain ⟨f1, f2, f3, f4⟩ := first_pass_inv k (per_type_target k required) required docs
    ⟨[], [], fun _ => 0⟩ (by simp) (by simp) (by simp)
  obtain ⟨s1, s2, s3⟩ := second_pass_inv k docs _ f1 f2 f3
  have hbal : balanced_selection docs required k
      = ((second_pass k docs (first_pass k required (per_type_target k required) docs
          ⟨[], [], fun _ => 0⟩)).selected).take k := rfl
  refine ⟨?_, ?_, ?_⟩
  · rw [hbal, List.length_take]
    exact Nat.min_le_left _ _
  · rw [hbal]
    exact List.Pairwise.sublist (List.take_sublist _ _) (List.pairwise_map.mp s1)
  · intro d hd
    rw [hbal] at hd
    rcases s3 d (List.take_subset _ _ hd) with hdocs | hsel
    · exact hdocs
    · rcases f4 d hsel with hdocs | habs
      · exact hdocs
      · simp at habs

/-- Claim C3, witness at a one-document input. -/
theorem claim_C3_witness :
    (balanced_selection [docA] [] 1).length ≤ 1 ∧ docA ∈ [docA] :=
  ⟨(claim_C3_selection_invariants [docA] [] 1).1,
   (claim_C3_selection_invariants [docA] [] 1).2.2 docA (by decide)⟩

/-- Claim C4, counterexample: with empty required codes the output is not
the first `k` input candidates de-duplicated by url, because a document
with an empty url is dropped altogether, not merely de-duplicated. -/
theorem claim_C4_counterexample :
    balanced_selection [docEmptyC] [] 1 ≠ (dedup_by_url [] [docEmptyC]).take 1 := by
  decide

/-- Claim C4 (amended): when the required-code set is empty the first
pass accepts nothing, and the output equals the first `k` input
candidates with a non-empty url, de-duplicated by url, in input order. -/
theorem claim_C4_empty_required_top_k :
    ∀ (docs : List Document) (k : Nat),
      first_pass_selected docs [] k = []
      ∧ balanced_selection docs [] k = (dedup_by_url_nonempty [] docs).take k := by
  intro docs k
  constructor
  · show (first_pass k [] (per_type_target k []) docs ⟨[], [], fun _ => 0⟩).selected = []
    rw [first_pass_empty_required]
  · have hbal : balanced_selection docs [] k
        = ((second_pass k docs (first_pass k [] (per_type_target k []) docs
            ⟨[], [], fun _ => 0⟩)).selected).take k := rfl
    rw [hbal, first_pass_empty_required, second_pass_selected]
    simp [List.take_take]

/-- Claim C5 (confirmed): the final ranking is the stable descending sort
of the balanced list zipped with its scores: the subsequence of pairs at
any fixed score is exactly the corresponding subsequence of the pre-sort
(balanced) order, and scores are non-increasing along the output. -/
theorem claim_C5_stable_ranking :
    ∀ (balanced : List Document) (scores : List Int) (s : Int),
      (ranked_pairs balanced scores).filter (fun p => p.2 == s)
          = (balanced.zip scores).filter (fun p => p.2 == s)
      ∧ (ranked_pairs balanced scores).Pairwise (fun a b => b.2 ≤ a.2) := by
  intro balanced scores s
  exact ⟨sort_desc_filter _ s, sort_desc_pairwise _⟩

/-- Claim C6 (confirmed): intent detection returns the empty list on
output-validation failure instead of raising, and the orchestrator's
required-code computation substitutes the fixed pair {K, P} whenever no
codes resolve, so it never yields an empty code list. -/
theorem claim_C6_intent_fallback :
    detect_query_intent none = []
    ∧ (∀ ds : List String, ¬ (∀ d ∈ ds, d ∈ DOMAIN_TO_TEST_TYPES.map Prod.fst) →
        detect_query_intent (some ds) = [])
    ∧ (∀ raw : Option (List String), required_codes_of raw ≠ []) := by
  refine ⟨rfl, ?_, ?_⟩
  · intro ds h
    simp only [detect_query_intent]
    rw [if_neg]
    intro hall
    apply h
    intro d hd
    exact of_decide_eq_true (List.all_eq_true.mp hall d hd)
  · intro raw
    simp only [required_codes_of]
    split_ifs with h
    · simp
    · exact h

/-- Claim C6, witness: an invalid domain label degrades to the empty
list, and the fallback produces a non-empty code list. -/
theorem claim_C6_witness :
    detect_query_intent (some ["bogus"]) = [] ∧ required_codes_of none ≠ [] :=
  ⟨claim_C6_intent_fallback.2.1 ["bogus"] (by decide),
   claim_C6_intent_fallback.2.2 none⟩

/-- Claim C7 (confirmed): duration parsing returns the first integer
substring of the raw field and null when the field is absent or contains
no digits; in particular "45 minutes" parses to 45, "N/A" and "" to
null, and "60" to 60. -/
theorem claim_C7_duration_parsing :
    duration_as_int none = none
    ∧ (∀ s : String, (∀ c ∈ s.data, ¬ c.isDigit) → duration_as_int (some s) = none)
    ∧ (∀ p d r : List Char, (∀ c ∈ p, ¬ c.isDigit) → d ≠ [] → (∀ c ∈ d, c.isDigit) →
        (∀ c, r.head? = some c → ¬ c.isDigit) →
        duration_as_int (some (String.mk (p ++ d ++ r))) = some (digits_to_nat d))
    ∧ duration_as_int (some "45 minutes") = some 45
    ∧ duration_as_int (some "N/A") = none
    ∧ duration_as_int (some "") = none
    ∧ duration_as_int (some "60") = some 60 := by
  refine ⟨rfl, ?_, ?_, by decide, by decide, rfl, by decide⟩
  · intro s h
    simp only [duration_as_int]
    rw [first_digit_run_eq_none s.data h]
  · intro p d r hp hd hdd hr
    have key : first_digit_run (String.mk (p ++ d ++ r)).data = some d := by
      show first_digit_run (p ++ d ++ r) = some d
      rw [List.append_assoc, first_digit_run_skip p (d ++ r) hp]
      cases d with
      | nil => exact absurd rfl hd
      | cons c tail =>
        have hc : c.isDigit := hdd c (List.mem_cons_self c tail)
        simp only [List.cons_append, first_digit_run, if_pos hc]
        simp only [List.append_eq]
        rw [takeWhile_digits_append tail r
          (fun x hx => hdd x (List.mem_cons_of_mem c hx)) hr]
    simp only [duration_as_int, key]

/-- Claim C7, witness: the general first-integer-substring law at the
concrete decomposition of "45 minutes" offset by a leading space. -/
theorem claim_C7_witness :
    duration_as_int (some (String.mk ([' '] ++ ['4', '5'] ++ [' ', 'm'])))
      = some (digits_to_nat ['4', '5']) :=
  claim_C7_duration_parsing.2.2.1 [' '] ['4', '5'] [' ', 'm']
    (by decide) (by decide) (by decide) (by decide)

/-- Claim C8, counterexample: a document carrying the unknown code `X`
is emitted with the raw code `X` inside `test_type`, which is not one of
the 8 human-readable names, so unknown codes are not dropped from the
emitted output. -/
theorem claim_C8_counterexample :
    build_recommendation docXK ∈ emit_recommendations [(docXK, 5)] 7
    ∧ "X" ∈ (build_recommendation docXK).testType
    ∧ "X" ∉ TEST_TYPE_MAP.map Prod.snd := by
  exact ⟨by decide, by decide, by decide⟩

/-- Claim C8 (amended): every emitted Recommendation's `test_type` equals
the document's extracted codes mapped through the fixed 8-name map with
codes outside the map passed through unchanged rather than dropped;
dropping of unknown codes happens only in the document builder's semantic
expansion (`expand_test_types`). -/
theorem claim_C8_test_type_mapping :
    (∀ (ranked : List (Document × Int)) (k : Nat) (rec : Recommendation),
        rec ∈ emit_recommendations ranked k →
        ∃ p ∈ ranked, rec.testType
          = (extract_test_types p.1).map (fun c => (TEST_TYPE_MAP.lookup c).getD c))
    ∧ expand_test_types (some "K,X") = "Knowledge and skills assessments" := by
  constructor
  · intro ranked k rec hrec
    rcases emit_loop_mem k ranked [] [] rec hrec with hacc | ⟨p, hp, hrp⟩
    · simp at hacc
    · exact ⟨p, hp, by rw [hrp]; rfl⟩
  · rfl

/-- Claim C8, witness: the emitted record of the unknown-code document is
built by the pass-through mapping. -/
theorem claim_C8_witness :
    ∃ p ∈ [(docXK, (5 : Int))], (build_recommendation docXK).testType
      = (extract_test_types p.1).map (fun c => (TEST_TYPE_MAP.lookup c).getD c) :=
  claim_C8_test_type_mapping.1 [(docXK, 5)] 7 (build_recommendation docXK) (by decide)

/-- Claim C9 (confirmed): the catalog loader fails with a schema error
when a required column is missing, fails with a data-integrity error when
all columns are present but the row count is below the threshold, and
otherwise returns the table unchanged. -/
theorem claim_C9_load_catalog :
    ∀ t : Table,
      ((∃ c ∈ required_columns, c ∉ t.columns) →
        ∃ c, load_catalog t = Except.error (LoadError.schemaError c))
      ∧ ((∀ c ∈ required_columns, c ∈ t.columns) → t.nrows < MIN_ROWS →
        load_catalog t = Except.error (LoadError.dataIntegrityError t.nrows))
      ∧ ((∀ c ∈ required_columns, c ∈ t.columns) → MIN_ROWS ≤ t.nrows →
        load_catalog t = Except.ok t) := by
  intro t
  refine ⟨?_, ?_, ?_⟩
  · rintro ⟨c, hc, hnot⟩
    have hsome : (required_columns.find? (fun c => decide (c ∉ t.columns))).isSome := by
      rw [List.find?_isSome]
      exact ⟨c, hc, decide_eq_true hnot⟩
    rcases Option.isSome_iff_exists.mp hsome with ⟨c0, hc0⟩
    exact ⟨c0, by simp only [load_catalog, hc0]⟩
  · intro hall hlt
    have hnone : required_columns.find? (fun c => decide (c ∉ t.columns)) = none := by
      rw [List.find?_eq_none]
      intro c hc
      simp [hall c hc]
    simp only [load_catalog, hnone, if_pos hlt]
  · intro hall hge
    have hnone : required_columns.find? (fun c => decide (c ∉ t.columns)) = none := by
      rw [List.find?_eq_none]
      intro c hc
      simp [hall c hc]
    simp only [load_catalog, hnone, if_neg (Nat.not_lt.mpr hge)]

/-- Claim C9, witness: a table with no columns fails the schema check, a
full table with 400 rows loads unchanged, and a full table with 10 rows
fails the integrity check. -/
theorem claim_C9_witness :
    (∃ c, load_catalog ⟨[], 400⟩ = Except.error (LoadError.schemaError c))
    ∧ load_catalog ⟨required_columns, 400⟩ = Except.ok ⟨required_columns, 400⟩
    ∧ load_catalog ⟨required_columns, 10⟩
        = Except.error (LoadError.dataIntegrityError 10) :=
  ⟨(claim_C9_load_catalog ⟨[], 400⟩).1 (by decide),
   (claim_C9_load_catalog ⟨required_columns, 400⟩).2.2 (by decide) (by decide),
   (claim_C9_load_catalog ⟨required_columns, 10⟩).2.1 (by decide) (by decide)⟩

/-- Claim C10 (confirmed): documents with a missing or empty url are
skipped at every stage: everything in the retrieval merge, in the
balanced selection, and in the emitted recommendations has a non-empty
url. -/
theorem claim_C10_url_skipped_everywhere :
    (∀ (batches : List (List Document)), ∀ d ∈ merge_retrieved batches,
        d.metadata.assessmentUrl ≠ "")
    ∧ (∀ (docs : List Document) (required : List String) (k : Nat),
        ∀ d ∈ balanced_selection docs required k, d.metadata.assessmentUrl ≠ "")
    ∧ (∀ (ranked : List (Document × Int)) (k : Nat),
        ∀ rec ∈ emit_recommendations ranked k, rec.url ≠ "") := by
  refine ⟨?_, ?_, ?_⟩
  · intro batches d hd
    exact merge_fold_inv batches ([], []) (by simp) d hd
  · intro docs required k d hd
    obtain ⟨f1, f2, f3, f4⟩ := first_pass_inv k (per_type_target k required) required docs
      ⟨[], [], fun _ => 0⟩ (by simp) (by simp) (by simp)
    obtain ⟨s1, s2, s3⟩ := second_pass_inv k docs _ f1 f2 f3
    exact s2 d (List.take_subset _ _ hd)
  · intro ranked k rec hrec
    exact emit_loop_inv k ranked [] [] (by simp) rec hrec

/-- Claim C10, witness: the merge keeps the non-empty-url document and
the emitted record of it has a non-empty url. -/
theorem claim_C10_witness :
    docA.metadata.assessmentUrl ≠ "" ∧ (build_recommendation docA).url ≠ "" :=
  ⟨claim_C10_url_skipped_everywhere.1 [[docA]] docA (by decide),
   claim_C10_url_skipped_everywhere.2.2 [(docA, 5)] 7 (build_recommendation docA) (by decide)⟩
